import Mathlib

/-!
# Input definitions of the Pilosa index server

A shallow embedding of `input_definition.go`: the constructor
`NewInputDefinition`, the accessors, `Open`, `loadMeta` and `saveMeta`.

The Go code talks to three outside parties: the name validator of the
package, the protobuf codec and the operating system (directory creation,
whole-file read, whole-file write, path joining).  None of them is defined in
`input_definition.go`, so they are collected in an environment record `Env`
and every function of the embedding takes the environment as its first
argument.  Filesystem state is passed explicitly; every function that the Go
code runs for its effect returns the receiver after the call, the filesystem
after the call, the returned error and the list of outside calls it made.

Lines 74 and 75 of `loadMeta` assign the decoded frame list and field list to
the receiver as they are.  The stored types (generated protobuf code) and the
in-memory frame type are declared outside `input_definition.go`.  The
embedding takes the stored field and the stored action to be the structs
`Field` and `Action` of the file, whose members are the ones `saveMeta` fills,
and the in-memory frame to be the stored frame, so that the two assignments
are the plain assignments of the source.
-/

namespace Pilosa

/-! ## Data model -/

/-- Go `error` values that are not nil, represented by their message. -/
abbrev Error := String

/-- Go `[]byte` buffers; the code under study never looks inside one. -/
abbrev Bytes := List Nat

/-- Go `map[string]uint64`, kept as an association list that is read through
`List.lookup`. -/
abbrev ValueMap := List (String × Nat)

/-- The `Action` struct of `input_definition.go` (lines 144-149). -/
structure Action where
  Frame : String
  ValueDestination : String
  ValueMap : ValueMap
  RowID : Nat
  deriving DecidableEq

/-- The `Field` struct of `input_definition.go` (lines 138-142). -/
structure Field where
  Name : String
  PrimaryKey : Bool
  Actions : List Action
  deriving DecidableEq

namespace internal

/-- Modelled from the spec: the stored options of a frame descriptor (row
label, inverse-enabled flag, cache type, cache size, time quantum).  The
generated protobuf declaration is outside `input_definition.go`; these are the
five members `saveMeta` fills, the time quantum as a string. -/
structure FrameMeta where
  RowLabel : String
  InverseEnabled : Bool
  CacheType : String
  CacheSize : Nat
  TimeQuantum : String
  deriving DecidableEq

/-- Modelled from the spec: a stored frame descriptor (name + options).  The
generated protobuf declaration is outside `input_definition.go`; these are the
two members `saveMeta` fills. -/
structure Frame where
  Name : String
  Meta : FrameMeta
  deriving DecidableEq

/-- Modelled from the spec: a stored action (target frame, value destination
tag, value map, row ID).  The generated protobuf declaration is outside
`input_definition.go`.  `saveMeta` fills the members `Frame`,
`ValueDestination`, `ValueMap` and `RowID`, and `loadMeta` (line 75) stores
decoded fields, with their actions, in the member `fields` as they are; so a
stored action is the struct `Action` of lines 144-149. -/
abbrev Action := Pilosa.Action

/-- Modelled from the spec: a stored field descriptor (name, primary-key flag,
ordered action list).  The generated protobuf declaration is outside
`input_definition.go`.  `saveMeta` fills the members `Name`, `PrimaryKey` and
`Actions`, and `loadMeta` (line 75) stores the decoded list in the member
`fields` as it is; so a stored field is the struct `Field` of lines
138-142. -/
abbrev InputDefinitionField := Pilosa.Field

/-- Modelled from the spec: the single serialized descriptor message
(definition name, ordered frame descriptors, ordered field descriptors). -/
structure InputDefinition where
  Name : String
  Frames : List Frame
  InputDefinitionFields : List InputDefinitionField
  deriving DecidableEq

end internal

/-- Modelled from the spec: the options of a frame (row label,
inverse-enabled flag, cache type, cache size, time quantum).  The declaration
is outside `input_definition.go`; `saveMeta` reads these five members and
copies each into the stored options (the time quantum through `string(...)`),
and `loadMeta` (line 74) stores decoded frames in the member `frames` as they
are; so the options of an in-memory frame are the stored options. -/
abbrev FrameOptions := internal.FrameMeta

/-- Modelled from the spec: the in-memory frame of an input definition, a
name with options.  The declaration is outside `input_definition.go`;
`loadMeta` (line 74) stores the decoded frames in the member `frames` as they
are, so an in-memory frame is a stored frame. -/
abbrev InputFrame := internal.Frame

/-- The member `Options` that `saveMeta` reads of an in-memory frame. -/
def InputFrame.Options (fr : InputFrame) : FrameOptions := fr.Meta

/-- The `InputDefinition` struct of `input_definition.go`.  The members
`broadcaster`, `Stats` and `LogOutput` are never read or written by the
functions embedded here and are left out. -/
structure InputDefinition where
  name : String
  path : String
  index : String
  frames : List InputFrame
  fields : List Field
  deriving DecidableEq

/-! ## The outside world -/

/-- One call that leaves `input_definition.go`, with its arguments. -/
inductive Call where
  | MkdirAll (path : String) (perm : Nat)
  | ReadFile (filename : String)
  | Unmarshal (buf : Bytes)
  | Marshal (pb : internal.InputDefinition)
  | WriteFile (filename : String) (data : Bytes) (perm : Nat)
  deriving DecidableEq

/-- Everything `input_definition.go` calls but does not define.
`ValidateName` is the validator of the package (nil is `none`), `Marshal` and
`Unmarshal` are the protobuf codec on descriptor messages, `MkdirAll`,
`ReadFile` and `WriteFile` are the Go library calls on a filesystem state of
type `FS` (the two that change the filesystem return the state they leave
behind together with their error, also when they fail), and `Join` is
`filepath.Join` on two elements. -/
structure Env (FS : Type) where
  ValidateName : String → Option Error
  Marshal : internal.InputDefinition → Except Error Bytes
  Unmarshal : Bytes → Except Error internal.InputDefinition
  MkdirAll : String → Nat → FS → Option Error × FS
  ReadFile : String → FS → Except Error Bytes
  WriteFile : String → Bytes → Nat → FS → Option Error × FS
  Join : String → String → String

/-- What a method with receiver `*InputDefinition` leaves behind: the returned
error (`none` is nil), the receiver after the call, the filesystem after the
call, and the outside calls made, first to last. -/
structure Outcome (FS : Type) where
  err : Option Error
  recv : InputDefinition
  fs : FS
  calls : List Call

/-! ## The functions of `input_definition.go` -/

variable {FS : Type}

/-- The function `NewInputDefinition`: validate the name, then build the
struct with the three identifiers and nil frames and fields.  It takes the
filesystem only to hand it back: the Go function makes no library call. -/
def NewInputDefinition (env : Env FS) (path index name : String) (fs : FS) :
    Except Error InputDefinition × FS × List Call :=
  match env.ValidateName name with
  | some err => (.error err, fs, [])
  | none =>
    (.ok { path := path, index := index, name := name, frames := [], fields := [] }, fs, [])

/-- The accessor `Name`. -/
def InputDefinition.Name (i : InputDefinition) : String := i.name

/-- The accessor `Index`. -/
def InputDefinition.Index (i : InputDefinition) : String := i.index

/-- The accessor `Path`. -/
def InputDefinition.Path (i : InputDefinition) : String := i.path

/-- The method `loadMeta`: read the file `Join(path, name)`, decode it, and
only then copy the name and assign the decoded frames and fields to the
receiver as they are (lines 73-75). -/
def loadMeta (env : Env FS) (i : InputDefinition) (fs : FS) : Outcome FS :=
  let filename := env.Join i.path i.name
  match env.ReadFile filename fs with
  | .error err => { err := some err, recv := i, fs := fs, calls := [.ReadFile filename] }
  | .ok buf =>
    match env.Unmarshal buf with
    | .error err =>
      { err := some err, recv := i, fs := fs, calls := [.ReadFile filename, .Unmarshal buf] }
    | .ok pb =>
      { err := none,
        recv :=
          { i with
            name := pb.Name,
            frames := pb.Frames,
            fields := pb.InputDefinitionFields },
        fs := fs,
        calls := [.ReadFile filename, .Unmarshal buf] }

/-- The method `Open`: `os.MkdirAll(i.path, 0777)`, then `loadMeta`; the
error of the first step that fails is returned as it is. -/
def Open (env : Env FS) (i : InputDefinition) (fs : FS) : Outcome FS :=
  match env.MkdirAll i.path 0o777 fs with
  | (some err, fs1) =>
    { err := some err, recv := i, fs := fs1, calls := [.MkdirAll i.path 0o777] }
  | (none, fs1) =>
    let r := loadMeta env i fs1
    { r with calls := .MkdirAll i.path 0o777 :: r.calls }

/-- The first loop of `saveMeta`: one stored frame per in-memory frame,
appended in iteration order. -/
def saveMeta_frames (frames : List InputFrame) : List internal.Frame :=
  frames.foldl
    (fun acc fr =>
      acc ++
        [{ Name := fr.Name,
           Meta :=
             { RowLabel := fr.Options.RowLabel,
               InverseEnabled := fr.Options.InverseEnabled,
               CacheType := fr.Options.CacheType,
               CacheSize := fr.Options.CacheSize,
               TimeQuantum := fr.Options.TimeQuantum } }])
    []

/-- The inner loop of `saveMeta`: one stored action per action, appended in
iteration order. -/
def saveMeta_actions (actions : List Action) : List internal.Action :=
  actions.foldl
    (fun acc action =>
      acc ++
        [{ Frame := action.Frame,
           ValueDestination := action.ValueDestination,
           ValueMap := action.ValueMap,
           RowID := action.RowID }])
    []

/-- The second loop of `saveMeta`: one stored field per field, appended in
iteration order. -/
def saveMeta_fields (fields : List Field) : List internal.InputDefinitionField :=
  fields.foldl
    (fun acc field =>
      acc ++
        [{ Name := field.Name,
           PrimaryKey := field.PrimaryKey,
           Actions := saveMeta_actions field.Actions }])
    []

/-- The message `saveMeta` hands to `proto.Marshal`. -/
def saveMeta_pb (i : InputDefinition) : internal.InputDefinition :=
  { Name := i.name,
    Frames := saveMeta_frames i.frames,
    InputDefinitionFields := saveMeta_fields i.fields }

/-- The method `saveMeta`: build the message, marshal it, and write the
buffer to `Join(path, name)` with `ioutil.WriteFile(..., 0666)`. -/
def saveMeta (env : Env FS) (i : InputDefinition) (fs : FS) : Outcome FS :=
  let pb := saveMeta_pb i
  match env.Marshal pb with
  | .error err => { err := some err, recv := i, fs := fs, calls := [.Marshal pb] }
  | .ok buf =>
    let filename := env.Join i.path i.name
    match env.WriteFile filename buf 0o666 fs with
    | (some err, fs1) =>
      { err := some err, recv := i, fs := fs1,
        calls := [.Marshal pb, .WriteFile filename buf 0o666] }
    | (none, fs1) =>
      { err := none, recv := i, fs := fs1,
        calls := [.Marshal pb, .WriteFile filename buf 0o666] }

/-! ## What the statements compare -/

/-- The name and the five options of an in-memory frame: name, row label,
inverse-enabled flag, cache type, cache size, time quantum as a string. -/
def frameView (fr : InputFrame) : String × String × Bool × String × Nat × String :=
  (fr.Name, fr.Options.RowLabel, fr.Options.InverseEnabled, fr.Options.CacheType,
    fr.Options.CacheSize, fr.Options.TimeQuantum)

/-- The name and the five options of a stored frame, in the same order. -/
def storedFrameView (fr : internal.Frame) : String × String × Bool × String × Nat × String :=
  (fr.Name, fr.Meta.RowLabel, fr.Meta.InverseEnabled, fr.Meta.CacheType,
    fr.Meta.CacheSize, fr.Meta.TimeQuantum)

/-- The four members of an action: frame, value destination, value map,
row ID. -/
def actionView (a : Action) : String × String × ValueMap × Nat :=
  (a.Frame, a.ValueDestination, a.ValueMap, a.RowID)

/-- The four members of a stored action, in the same order. -/
def storedActionView (a : internal.Action) : String × String × ValueMap × Nat :=
  (a.Frame, a.ValueDestination, a.ValueMap, a.RowID)

/-- The name, the primary-key flag and the ordered actions of a field. -/
def fieldView (f : Field) : String × Bool × List (String × String × ValueMap × Nat) :=
  (f.Name, f.PrimaryKey, f.Actions.map actionView)

/-- The name, the primary-key flag and the ordered actions of a stored
field. -/
def storedFieldView (f : internal.InputDefinitionField) :
    String × Bool × List (String × String × ValueMap × Nat) :=
  (f.Name, f.PrimaryKey, f.Actions.map storedActionView)

/-! ## Call sequences -/

/-- The two methods that can be called on a definition after construction. -/
inductive Op where
  | Open
  | saveMeta
  deriving DecidableEq

/-- One call of a method on the receiver `i` over the filesystem `fs`. -/
def execOp (env : Env FS) (op : Op) (i : InputDefinition) (fs : FS) : Outcome FS :=
  match op with
  | .Open => Open env i fs
  | .saveMeta => saveMeta env i fs

/-- Run a sequence of calls one after the other, each on the receiver and the
filesystem the previous one left; the outcomes are listed call by call. -/
def runOps (env : Env FS) : List Op → InputDefinition → FS → List (Outcome FS)
  | [], _, _ => []
  | op :: ops, i, fs =>
    let r := execOp env op i fs
    r :: runOps env ops r.recv r.fs

/-! ## Contracts of the library calls

The statements below about file contents name the contract of the library
call they rest on.  Each contract is a property of an environment. -/

/-- Contract of the codec, `Unmarshal(Marshal(m)) = m`: a buffer that the
encoder returned for a message decodes to that message. -/
def CodecRoundTrip (env : Env FS) : Prop :=
  ∀ (pb : internal.InputDefinition) (buf : Bytes),
    env.Marshal pb = .ok buf → env.Unmarshal buf = .ok pb

/-- Contract of `ioutil.WriteFile`: after a write that returned nil, the
file read back is exactly the data written, and every other file reads as
before. -/
def WriteFileContract (env : Env FS) : Prop :=
  ∀ (filename : String) (data : Bytes) (perm : Nat) (fs fs1 : FS),
    env.WriteFile filename data perm fs = (none, fs1) →
      env.ReadFile filename fs1 = .ok data ∧
      ∀ other : String, other ≠ filename → env.ReadFile other fs1 = env.ReadFile other fs

/-- Contract of `os.MkdirAll` on files: it creates directories only, so a
file that could be read before the call reads the same after it. -/
def MkdirAllKeepsFiles (env : Env FS) : Prop :=
  ∀ (path : String) (perm : Nat) (fs : FS) (filename : String) (data : Bytes),
    env.ReadFile filename fs = .ok data →
      env.ReadFile filename (env.MkdirAll path perm fs).2 = .ok data

/-- Contract of `os.MkdirAll` on an existing directory: once it has returned
nil for a path, calling it again for that path does nothing and returns
nil. -/
def MkdirAllExisting (env : Env FS) : Prop :=
  ∀ (path : String) (perm : Nat) (fs fs1 : FS),
    env.MkdirAll path perm fs = (none, fs1) → env.MkdirAll path perm fs1 = (none, fs1)

/-! ## A reference environment

A small executable environment on which the statements are exercised: a
validator, a length-prefixed codec and a flat filesystem. -/

/-- Modelled from the spec: names are non-empty and drawn from a restricted
character set.  The validator of the package is outside
`input_definition.go`; this one accepts 1 to 64 characters out of `a-z`,
`0-9`, `_` and `-`. -/
def refValidateName (name : String) : Option Error :=
  if name.data ≠ [] ∧ name.data.length ≤ 64 ∧
      name.data.all (fun c => ('a' ≤ c ∧ c ≤ 'z') ∨ ('0' ≤ c ∧ c ≤ '9') ∨ c = '_' ∨ c = '-')
  then none
  else some "invalid name"

/-- Reference codec, strings: the length, then one cell per character. -/
def refPutString (s : String) : Bytes :=
  s.data.length :: s.data.map Char.toNat

/-- Reference codec, booleans. -/
def refPutBool (b : Bool) : Bytes :=
  [if b then 1 else 0]

/-- Reference codec, lists: the items one after the other. -/
def refPutItems {α : Type} (put : α → Bytes) : List α → Bytes
  | [] => []
  | x :: xs => put x ++ refPutItems put xs

/-- Reference codec, lists: the length, then the items. -/
def refPutList {α : Type} (put : α → Bytes) (xs : List α) : Bytes :=
  xs.length :: refPutItems put xs

/-- Reference codec, one entry of a value map. -/
def refPutEntry (kv : String × Nat) : Bytes :=
  refPutString kv.1 ++ [kv.2]

/-- Reference codec, stored actions. -/
def refPutAction (a : internal.Action) : Bytes :=
  refPutString a.Frame ++ refPutString a.ValueDestination ++
    refPutList refPutEntry a.ValueMap ++ [a.RowID]

/-- Reference codec, stored fields. -/
def refPutField (f : internal.InputDefinitionField) : Bytes :=
  refPutString f.Name ++ refPutBool f.PrimaryKey ++ refPutList refPutAction f.Actions

/-- Reference codec, stored frames. -/
def refPutFrame (fr : internal.Frame) : Bytes :=
  refPutString fr.Name ++ refPutString fr.Meta.RowLabel ++ refPutBool fr.Meta.InverseEnabled ++
    refPutString fr.Meta.CacheType ++ [fr.Meta.CacheSize] ++ refPutString fr.Meta.TimeQuantum

/-- Reference codec, the whole message. -/
def refMarshal (pb : internal.InputDefinition) : Except Error Bytes :=
  .ok (refPutString pb.Name ++ refPutList refPutFrame pb.Frames ++
    refPutList refPutField pb.InputDefinitionFields)

/-- Reference decoder, one number. -/
def refGetNat : Bytes → Option (Nat × Bytes)
  | [] => none
  | n :: rest => some (n, rest)

/-- Reference decoder, strings. -/
def refGetString : Bytes → Option (String × Bytes)
  | [] => none
  | n :: rest =>
    if n ≤ rest.length then some (String.mk ((rest.take n).map Char.ofNat), rest.drop n)
    else none

/-- Reference decoder, booleans. -/
def refGetBool : Bytes → Option (Bool × Bytes)
  | 0 :: rest => some (false, rest)
  | 1 :: rest => some (true, rest)
  | _ => none

/-- Reference decoder, a given number of items. -/
def refGetItems {α : Type} (get : Bytes → Option (α × Bytes)) :
    Nat → Bytes → Option (List α × Bytes)
  | 0, buf => some ([], buf)
  | k + 1, buf =>
    match get buf with
    | none => none
    | some (x, rest) =>
      match refGetItems get k rest with
      | none => none
      | some (xs, rest1) => some (x :: xs, rest1)

/-- Reference decoder, lists. -/
def refGetList {α : Type} (get : Bytes → Option (α × Bytes)) :
    Bytes → Option (List α × Bytes)
  | [] => none
  | n :: rest => refGetItems get n rest

/-- Reference decoder, one entry of a value map. -/
def refGetEntry (buf : Bytes) : Option ((String × Nat) × Bytes) :=
  match refGetString buf with
  | none => none
  | some (k, rest) =>
    match refGetNat rest with
    | none => none
    | some (v, rest1) => some ((k, v), rest1)

/-- Reference decoder, stored actions. -/
def refGetAction (buf : Bytes) : Option (internal.Action × Bytes) :=
  match refGetString buf with
  | none => none
  | some (frame, r1) =>
    match refGetString r1 with
    | none => none
    | some (dest, r2) =>
      match refGetList refGetEntry r2 with
      | none => none
      | some (vm, r3) =>
        match refGetNat r3 with
        | none => none
        | some (row, r4) =>
          some ({ Frame := frame, ValueDestination := dest, ValueMap := vm, RowID := row }, r4)

/-- Reference decoder, stored fields. -/
def refGetField (buf : Bytes) : Option (internal.InputDefinitionField × Bytes) :=
  match refGetString buf with
  | none => none
  | some (name, r1) =>
    match refGetBool r1 with
    | none => none
    | some (pk, r2) =>
      match refGetList refGetAction r2 with
      | none => none
      | some (actions, r3) => some ({ Name := name, PrimaryKey := pk, Actions := actions }, r3)

/-- Reference decoder, stored frames. -/
def refGetFrame (buf : Bytes) : Option (internal.Frame × Bytes) :=
  match refGetString buf with
  | none => none
  | some (name, r1) =>
    match refGetString r1 with
    | none => none
    | some (rowLabel, r2) =>
      match refGetBool r2 with
      | none => none
      | some (inv, r3) =>
        match refGetString r3 with
        | none => none
        | some (cacheType, r4) =>
          match refGetNat r4 with
          | none => none
          | some (cacheSize, r5) =>
            match refGetString r5 with
            | none => none
            | some (tq, r6) =>
              some ({ Name := name,
                      Meta := { RowLabel := rowLabel, InverseEnabled := inv,
                                CacheType := cacheType, CacheSize := cacheSize,
                                TimeQuantum := tq } }, r6)

/-- Reference decoder, the whole message; bytes left over are an error. -/
def refUnmarshal (buf : Bytes) : Except Error internal.InputDefinition :=
  match refGetString buf with
  | none => .error "unexpected EOF"
  | some (name, r1) =>
    match refGetList refGetFrame r1 with
    | none => .error "unexpected EOF"
    | some (frames, r2) =>
      match refGetList refGetField r2 with
      | none => .error "unexpected EOF"
      | some (fields, []) => .ok { Name := name, Frames := frames, InputDefinitionFields := fields }
      | some (_, _ :: _) => .error "illegal tag"

/-- Reference filesystem: the directories that exist and the files with
their contents. -/
structure RefFS where
  dirs : List String
  files : List (String × Bytes)
  deriving DecidableEq

/-- Reference `filepath.Join` of two clean elements: empty elements are
dropped, the rest joined with a slash. -/
def refJoin (dir name : String) : String :=
  if dir = "" then name else if name = "" then dir else dir ++ "/" ++ name

/-- The directory part of a file name: everything before the last slash. -/
def refDir (filename : String) : String :=
  String.mk ((filename.data.reverse.dropWhile (fun c => c ≠ '/')).drop 1).reverse

/-- Reference `os.MkdirAll`: an empty path and a path that is a file are
errors, an existing directory is left alone, a missing one is created. -/
def refMkdirAll (path : String) (_perm : Nat) (fs : RefFS) : Option Error × RefFS :=
  if path = "" then (some "mkdir: no such file or directory", fs)
  else if (fs.files.lookup path).isSome then (some "mkdir: not a directory", fs)
  else if path ∈ fs.dirs then (none, fs)
  else (none, { fs with dirs := path :: fs.dirs })

/-- Reference `ioutil.ReadFile`. -/
def refReadFile (filename : String) (fs : RefFS) : Except Error Bytes :=
  match fs.files.lookup filename with
  | some data => .ok data
  | none => .error "open: no such file or directory"

/-- Reference `ioutil.WriteFile`: the target must not be a directory and its
directory must exist (the empty directory part is the working directory); the
old contents, if any, are dropped and the new ones stored. -/
def refWriteFile (filename : String) (data : Bytes) (_perm : Nat) (fs : RefFS) :
    Option Error × RefFS :=
  if filename ∈ fs.dirs then (some "open: is a directory", fs)
  else if refDir filename ≠ "" ∧ refDir filename ∉ fs.dirs then
    (some "open: no such file or directory", fs)
  else (none, { fs with files := (filename, data) :: fs.files.filter (fun e => e.1 ≠ filename) })

/-- The reference environment. -/
def refEnv : Env RefFS :=
  { ValidateName := refValidateName,
    Marshal := refMarshal,
    Unmarshal := refUnmarshal,
    MkdirAll := refMkdirAll,
    ReadFile := refReadFile,
    WriteFile := refWriteFile,
    Join := refJoin }

/-- Scenario A of the specification: one ranked frame and one field with a
fixed-row action. -/
def scenarioA : InputDefinition :=
  { name := "default", path := "/tmp/x", index := "idx",
    frames :=
      [{ Name := "f1",
         Meta := { RowLabel := "id", InverseEnabled := false, CacheType := "ranked",
                   CacheSize := 1000, TimeQuantum := "" } }],
    fields :=
      [{ Name := "age", PrimaryKey := false,
         Actions := [{ Frame := "f1", ValueDestination := "", ValueMap := [], RowID := 5 }] }] }

/-- A filesystem that holds the directory `/tmp/x` and nothing else. -/
def fsDirOnly : RefFS :=
  { dirs := ["/tmp/x"], files := [] }

/-- The empty filesystem. -/
def fsEmpty : RefFS :=
  { dirs := [], files := [] }

/-- A fresh definition for path `/tmp/x`, index `idx` and name `default`. -/
def freshA : InputDefinition :=
  { name := "default", path := "/tmp/x", index := "idx", frames := [], fields := [] }

/-- The filesystem after scenario A has been saved: the directory `/tmp/x`
and in it the file `default` with the encoded descriptor. -/
def fsSavedA : RefFS :=
  { dirs := ["/tmp/x"],
    files :=
      [("/tmp/x/default",
        [7, 100, 101, 102, 97, 117, 108, 116, 1, 2, 102, 49, 2, 105, 100, 0, 6, 114, 97, 110,
         107, 101, 100, 1000, 0, 1, 3, 97, 103, 101, 0, 1, 2, 102, 49, 0, 0, 5])] }

/-- A filesystem whose file `/tmp/x/default` is cut short: it announces a
name of nine characters and holds one. -/
def fsCorrupt : RefFS :=
  { dirs := ["/tmp/x"], files := [("/tmp/x/default", [9, 100])] }

/-- A filesystem whose file `/tmp/x/default` holds a valid descriptor with
the name `other`, no frames and no fields. -/
def fsRenamed : RefFS :=
  { dirs := ["/tmp/x"], files := [("/tmp/x/default", [5, 111, 116, 104, 101, 114, 0, 0])] }


/-- A filesystem in which `/tmp/x/default` holds an older, longer file and
`/tmp/x/other` a second file. -/
def fsSavedLonger : RefFS :=
  { dirs := ["/tmp/x"],
    files :=
      [("/tmp/x/other", [5, 111, 116, 104, 101, 114, 0, 0]),
       ("/tmp/x/default",
        [7, 100, 101, 102, 97, 117, 108, 116, 1, 2, 102, 49, 2, 105, 100, 0, 6, 114, 97, 110,
         107, 101, 100, 1000, 0, 1, 3, 97, 103, 101, 0, 1, 2, 102, 49, 0, 0, 5, 1, 1, 1, 1, 1, 1,
         1, 1, 1, 1, 1])] }

/-- A fresh definition for the empty path, index `idx` and name `default`. -/
def freshNoDir : InputDefinition :=
  { name := "default", path := "", index := "idx", frames := [], fields := [] }

/-- A filesystem whose working directory holds a file `default` that is cut
short: it announces a name of nine characters and holds one. -/
def fsCorruptNoDir : RefFS :=
  { dirs := [], files := [("default", [9, 100])] }

/-- A filesystem whose working directory holds a file `default` with a valid
descriptor that encodes the name `default`, no frames and no fields. -/
def fsValidNoDir : RefFS :=
  { dirs := [], files := [("default", [7, 100, 101, 102, 97, 117, 108, 116, 0, 0])] }

/-- A definition for path `/tmp/x` and name `default` that holds a frame and
a field of its own, both different from those of scenario A. -/
def staleA : InputDefinition :=
  { name := "default", path := "/tmp/x", index := "idx",
    frames :=
      [{ Name := "old",
         Meta := { RowLabel := "row", InverseEnabled := true, CacheType := "lru",
                   CacheSize := 7, TimeQuantum := "YMD" } }],
    fields :=
      [{ Name := "gone", PrimaryKey := true,
         Actions := [{ Frame := "old", ValueDestination := "mapping",
                       ValueMap := [("a", 1)], RowID := 9 }] }] }

/-! ## Lemmas on the embedding -/

/-- A loop that appends one item per element builds the mapped list. -/
theorem foldl_append_singleton {α β : Type} (f : α → β) (xs : List α) (acc : List β) :
    xs.foldl (fun acc x => acc ++ [f x]) acc = acc ++ xs.map f := by
  induction xs generalizing acc with
  | nil => simp
  | cons x xs ih => simp [ih]

/-- The first loop of `saveMeta` as a map. -/
theorem saveMeta_frames_eq_map (frames : List InputFrame) :
    saveMeta_frames frames =
      frames.map (fun fr =>
        ({ Name := fr.Name,
           Meta :=
             { RowLabel := fr.Options.RowLabel,
               InverseEnabled := fr.Options.InverseEnabled,
               CacheType := fr.Options.CacheType,
               CacheSize := fr.Options.CacheSize,
               TimeQuantum := fr.Options.TimeQuantum } } : internal.Frame)) := by
  unfold saveMeta_frames
  rw [foldl_append_singleton]
  simp

/-- The inner loop of `saveMeta` as a map. -/
theorem saveMeta_actions_eq_map (actions : List Action) :
    saveMeta_actions actions =
      actions.map (fun action =>
        ({ Frame := action.Frame,
           ValueDestination := action.ValueDestination,
           ValueMap := action.ValueMap,
           RowID := action.RowID } : internal.Action)) := by
  unfold saveMeta_actions
  rw [foldl_append_singleton]
  simp

/-- The second loop of `saveMeta` as a map. -/
theorem saveMeta_fields_eq_map (fields : List Field) :
    saveMeta_fields fields =
      fields.map (fun field =>
        ({ Name := field.Name,
           PrimaryKey := field.PrimaryKey,
           Actions := saveMeta_actions field.Actions } : internal.InputDefinitionField)) := by
  unfold saveMeta_fields
  rw [foldl_append_singleton]
  simp

/-- `saveMeta` when the encoder fails. -/
theorem saveMeta_of_marshal_error (env : Env FS) (i : InputDefinition) (fs : FS) (e : Error)
    (h : env.Marshal (saveMeta_pb i) = .error e) :
    saveMeta env i fs =
      { err := some e, recv := i, fs := fs, calls := [.Marshal (saveMeta_pb i)] } := by
  simp [saveMeta, h]

/-- `saveMeta` when the encoder passes and the write fails. -/
theorem saveMeta_of_write_error (env : Env FS) (i : InputDefinition) (fs fs1 : FS)
    (buf : Bytes) (e : Error)
    (h : env.Marshal (saveMeta_pb i) = .ok buf)
    (hw : env.WriteFile (env.Join i.path i.name) buf 0o666 fs = (some e, fs1)) :
    saveMeta env i fs =
      { err := some e, recv := i, fs := fs1,
        calls := [.Marshal (saveMeta_pb i),
                  .WriteFile (env.Join i.path i.name) buf 0o666] } := by
  simp [saveMeta, h, hw]

/-- `saveMeta` when encoder and write pass. -/
theorem saveMeta_of_written (env : Env FS) (i : InputDefinition) (fs fs1 : FS)
    (buf : Bytes)
    (h : env.Marshal (saveMeta_pb i) = .ok buf)
    (hw : env.WriteFile (env.Join i.path i.name) buf 0o666 fs = (none, fs1)) :
    saveMeta env i fs =
      { err := none, recv := i, fs := fs1,
        calls := [.Marshal (saveMeta_pb i),
                  .WriteFile (env.Join i.path i.name) buf 0o666] } := by
  simp [saveMeta, h, hw]

/-- The three ways `saveMeta` can go, by the results of its two steps. -/
theorem saveMeta_cases (env : Env FS) (i : InputDefinition) (fs : FS) :
    (∃ e, env.Marshal (saveMeta_pb i) = .error e) ∨
    (∃ buf e fs1, env.Marshal (saveMeta_pb i) = .ok buf ∧
      env.WriteFile (env.Join i.path i.name) buf 0o666 fs = (some e, fs1)) ∨
    (∃ buf fs1, env.Marshal (saveMeta_pb i) = .ok buf ∧
      env.WriteFile (env.Join i.path i.name) buf 0o666 fs = (none, fs1)) := by
  rcases h : env.Marshal (saveMeta_pb i) with e | buf
  · exact Or.inl ⟨e, rfl⟩
  · right
    rcases hw : env.WriteFile (env.Join i.path i.name) buf 0o666 fs with ⟨_ | e, fs1⟩
    · exact Or.inr ⟨buf, fs1, rfl, hw⟩
    · exact Or.inl ⟨buf, e, fs1, rfl, hw⟩

/-- `Open` when the directory step fails. -/
theorem Open_of_mkdir_error (env : Env FS) (i : InputDefinition) (fs fs1 : FS) (e : Error)
    (h : env.MkdirAll i.path 0o777 fs = (some e, fs1)) :
    Open env i fs =
      { err := some e, recv := i, fs := fs1, calls := [.MkdirAll i.path 0o777] } := by
  simp [Open, h]

/-- `Open` when the directory step passes and the read fails. -/
theorem Open_of_read_error (env : Env FS) (i : InputDefinition) (fs fs1 : FS) (e : Error)
    (h : env.MkdirAll i.path 0o777 fs = (none, fs1))
    (hr : env.ReadFile (env.Join i.path i.name) fs1 = .error e) :
    Open env i fs =
      { err := some e, recv := i, fs := fs1,
        calls := [.MkdirAll i.path 0o777, .ReadFile (env.Join i.path i.name)] } := by
  simp [Open, loadMeta, h, hr]

/-- `Open` when directory step and read pass and the decoder rejects. -/
theorem Open_of_decode_error (env : Env FS) (i : InputDefinition) (fs fs1 : FS)
    (buf : Bytes) (e : Error)
    (h : env.MkdirAll i.path 0o777 fs = (none, fs1))
    (hr : env.ReadFile (env.Join i.path i.name) fs1 = .ok buf)
    (hu : env.Unmarshal buf = .error e) :
    Open env i fs =
      { err := some e, recv := i, fs := fs1,
        calls := [.MkdirAll i.path 0o777, .ReadFile (env.Join i.path i.name),
                  .Unmarshal buf] } := by
  simp [Open, loadMeta, h, hr, hu]

/-- `Open` when all three steps pass. -/
theorem Open_of_decoded (env : Env FS) (i : InputDefinition) (fs fs1 : FS)
    (buf : Bytes) (pb : internal.InputDefinition)
    (h : env.MkdirAll i.path 0o777 fs = (none, fs1))
    (hr : env.ReadFile (env.Join i.path i.name) fs1 = .ok buf)
    (hu : env.Unmarshal buf = .ok pb) :
    Open env i fs =
      { err := none,
        recv :=
          { i with
            name := pb.Name,
            frames := pb.Frames,
            fields := pb.InputDefinitionFields },
        fs := fs1,
        calls := [.MkdirAll i.path 0o777, .ReadFile (env.Join i.path i.name),
                  .Unmarshal buf] } := by
  simp [Open, loadMeta, h, hr, hu]

/-- The four ways `Open` can go, by the results of its three steps. -/
theorem Open_cases (env : Env FS) (i : InputDefinition) (fs : FS) :
    (∃ e fs1, env.MkdirAll i.path 0o777 fs = (some e, fs1)) ∨
    (∃ fs1 e, env.MkdirAll i.path 0o777 fs = (none, fs1) ∧
      env.ReadFile (env.Join i.path i.name) fs1 = .error e) ∨
    (∃ fs1 buf e, env.MkdirAll i.path 0o777 fs = (none, fs1) ∧
      env.ReadFile (env.Join i.path i.name) fs1 = .ok buf ∧ env.Unmarshal buf = .error e) ∨
    (∃ fs1 buf pb, env.MkdirAll i.path 0o777 fs = (none, fs1) ∧
      env.ReadFile (env.Join i.path i.name) fs1 = .ok buf ∧ env.Unmarshal buf = .ok pb) := by
  rcases h : env.MkdirAll i.path 0o777 fs with ⟨_ | e, fs1⟩
  · right
    rcases hr : env.ReadFile (env.Join i.path i.name) fs1 with e | buf
    · exact Or.inl ⟨fs1, e, rfl, hr⟩
    · right
      rcases hu : env.Unmarshal buf with e | pb
      · exact Or.inl ⟨fs1, buf, e, rfl, hr, hu⟩
      · exact Or.inr ⟨fs1, buf, pb, rfl, hr, hu⟩
  · exact Or.inl ⟨e, fs1, rfl⟩

/-- One call preserves path and index of the receiver. -/
theorem execOp_path_index (env : Env FS) (op : Op) (i : InputDefinition) (fs : FS) :
    (execOp env op i fs).recv.path = i.path ∧ (execOp env op i fs).recv.index = i.index := by
  cases op with
  | Open =>
    show (Open env i fs).recv.path = i.path ∧ (Open env i fs).recv.index = i.index
    rcases Open_cases env i fs with ⟨e, fs1, h⟩ | ⟨fs1, e, h, hr⟩ | ⟨fs1, buf, e, h, hr, hu⟩ |
      ⟨fs1, buf, pb, h, hr, hu⟩
    · rw [Open_of_mkdir_error env i fs fs1 e h]
      exact ⟨rfl, rfl⟩
    · rw [Open_of_read_error env i fs fs1 e h hr]
      exact ⟨rfl, rfl⟩
    · rw [Open_of_decode_error env i fs fs1 buf e h hr hu]
      exact ⟨rfl, rfl⟩
    · rw [Open_of_decoded env i fs fs1 buf pb h hr hu]
      exact ⟨rfl, rfl⟩
  | saveMeta =>
    show (saveMeta env i fs).recv.path = i.path ∧ (saveMeta env i fs).recv.index = i.index
    rcases saveMeta_cases env i fs with ⟨e, h⟩ | ⟨buf, e, fs1, h, hw⟩ | ⟨buf, fs1, h, hw⟩
    · rw [saveMeta_of_marshal_error env i fs e h]
      exact ⟨rfl, rfl⟩
    · rw [saveMeta_of_write_error env i fs fs1 buf e h hw]
      exact ⟨rfl, rfl⟩
    · rw [saveMeta_of_written env i fs fs1 buf h hw]
      exact ⟨rfl, rfl⟩

/-- One call preserves the name of the receiver unless it is an `Open` that
returns nil. -/
theorem execOp_name (env : Env FS) (op : Op) (i : InputDefinition) (fs : FS)
    (h : op = Op.Open → (execOp env op i fs).err ≠ none) :
    (execOp env op i fs).recv.name = i.name := by
  cases op with
  | Open =>
    have herr : (Open env i fs).err ≠ none := h rfl
    show (Open env i fs).recv.name = i.name
    rcases Open_cases env i fs with ⟨e, fs1, h⟩ | ⟨fs1, e, h, hr⟩ | ⟨fs1, buf, e, h, hr, hu⟩ |
      ⟨fs1, buf, pb, h, hr, hu⟩
    · rw [Open_of_mkdir_error env i fs fs1 e h]
    · rw [Open_of_read_error env i fs fs1 e h hr]
    · rw [Open_of_decode_error env i fs fs1 buf e h hr hu]
    · rw [Open_of_decoded env i fs fs1 buf pb h hr hu] at herr
      exact absurd rfl herr
  | saveMeta =>
    show (saveMeta env i fs).recv.name = i.name
    rcases saveMeta_cases env i fs with ⟨e, h⟩ | ⟨buf, e, fs1, h, hw⟩ | ⟨buf, fs1, h, hw⟩
    · rw [saveMeta_of_marshal_error env i fs e h]
    · rw [saveMeta_of_write_error env i fs fs1 buf e h hw]
    · rw [saveMeta_of_written env i fs fs1 buf h hw]

/-- Along a sequence of calls path and index stay, and the name stays up to
the first `Open` that returns nil. -/
theorem runOps_identifiers (env : Env FS) (ops : List Op) :
    ∀ (i : InputDefinition) (fs : FS) (k : Nat) (r : Outcome FS),
      (runOps env ops i fs)[k]? = some r →
        r.recv.path = i.path ∧ r.recv.index = i.index ∧
        ((∀ (j : Nat) (rj : Outcome FS), j ≤ k → ops[j]? = some Op.Open →
            (runOps env ops i fs)[j]? = some rj → rj.err ≠ none) →
          r.recv.name = i.name) := by
  induction ops with
  | nil =>
    intro i fs k r hr
    simp [runOps] at hr
  | cons op ops ih =>
    intro i fs k r hr
    cases k with
    | zero =>
      simp only [runOps, List.getElem?_cons_zero, Option.some.injEq] at hr
      subst hr
      refine ⟨(execOp_path_index env op i fs).1, (execOp_path_index env op i fs).2, ?_⟩
      intro H
      apply execOp_name
      intro hop
      exact H 0 (execOp env op i fs) (Nat.le_refl 0) (by simp [hop]) (by simp [runOps])
    | succ k =>
      simp only [runOps, List.getElem?_cons_succ] at hr
      obtain ⟨hp, hi, hn⟩ := ih (execOp env op i fs).recv (execOp env op i fs).fs k r hr
      refine ⟨hp.trans (execOp_path_index env op i fs).1,
        hi.trans (execOp_path_index env op i fs).2, ?_⟩
      intro H
      have h0 : (execOp env op i fs).recv.name = i.name := by
        apply execOp_name
        intro hop
        exact H 0 (execOp env op i fs) (Nat.zero_le _) (by simp [hop]) (by simp [runOps])
      rw [← h0]
      apply hn
      intro j rj hj hopj hrj
      exact H (j + 1) rj (Nat.succ_le_succ hj) (by simpa using hopj) (by simpa [runOps] using hrj)

/-- What the constructor returns when it succeeds. -/
theorem NewInputDefinition_ok (env : Env FS) (path index name : String) (fs : FS)
    (d : InputDefinition) (h : (NewInputDefinition env path index name fs).1 = .ok d) :
    d = { path := path, index := index, name := name, frames := [], fields := [] } := by
  unfold NewInputDefinition at h
  cases hv : env.ValidateName name with
  | some err =>
    rw [hv] at h
    cases h
  | none =>
    rw [hv] at h
    cases h
    rfl

/-! ## Lemmas on the reference environment -/

/-- Dropping the entries of one key does not change what another key finds. -/
theorem lookup_filter_ne (key other : String) (files : List (String × Bytes))
    (h : other ≠ key) :
    (files.filter (fun e => e.1 ≠ key)).lookup other = files.lookup other := by
  induction files with
  | nil => rfl
  | cons e rest ih =>
    obtain ⟨k, v⟩ := e
    simp only [ne_eq, decide_not] at ih
    by_cases hk : k = key
    · subst hk
      have hne : (other == k) = false := by simpa using h
      simp [List.filter, List.lookup, hne, ih]
    · by_cases ho : other = k
      · subst ho
        simp [List.filter, List.lookup, hk]
      · have hne : (other == k) = false := by simpa using ho
        simp [List.filter, List.lookup, hk, hne, ih]

/-- The reference environment meets the contract of `WriteFile`. -/
theorem refEnv_WriteFileContract : WriteFileContract refEnv := by
  intro filename data perm fs fs1 h
  simp only [refEnv, refWriteFile] at h
  split at h
  · cases h
  · split at h
    · cases h
    · cases h
      constructor
      · simp [refEnv, refReadFile, List.lookup]
      · intro other hne
        have hb : (other == filename) = false := by simpa using hne
        simp only [refEnv, refReadFile, List.lookup, hb]
        rw [lookup_filter_ne filename other fs.files hne]

/-- The reference `MkdirAll` leaves the files alone. -/
theorem refMkdirAll_files (path : String) (perm : Nat) (fs : RefFS) :
    (refMkdirAll path perm fs).2.files = fs.files := by
  unfold refMkdirAll
  split
  · rfl
  · split
    · rfl
    · split <;> rfl

/-- The reference environment meets the contract of `MkdirAll` on files. -/
theorem refEnv_MkdirAllKeepsFiles : MkdirAllKeepsFiles refEnv := by
  intro path perm fs filename data h
  simp only [refEnv, refReadFile] at h ⊢
  rw [refMkdirAll_files]
  exact h

/-- The reference environment meets the contract of `MkdirAll` on an
existing directory. -/
theorem refEnv_MkdirAllExisting : MkdirAllExisting refEnv := by
  intro path perm fs fs1 h
  simp only [refEnv] at h ⊢
  unfold refMkdirAll at h ⊢
  by_cases hp : path = ""
  · simp [hp] at h
  · by_cases hf : (fs.files.lookup path).isSome = true
    · simp [hp, hf] at h
    · by_cases hd : path ∈ fs.dirs
      · simp only [hp, hf, hd, if_true, if_false] at h
        cases h
        simp [hp, hf, hd]
      · simp only [hp, hf, hd, if_true, if_false] at h
        cases h
        simp [hp, hf]

/-- The reference decoder reads back an encoded string and leaves the rest. -/
theorem refGetString_put (s : String) (rest : Bytes) :
    refGetString (refPutString s ++ rest) = some (s, rest) := by
  obtain ⟨cs⟩ := s
  have hlen : cs.length ≤ (List.map Char.toNat cs ++ rest).length := by simp
  have htake : List.take cs.length (List.map Char.toNat cs ++ rest) = List.map Char.toNat cs := by
    rw [List.take_append_of_le_length (by simp)]
    simp
  have hdrop : List.drop cs.length (List.map Char.toNat cs ++ rest) = rest := by
    have : cs.length = (List.map Char.toNat cs).length := by simp
    rw [this, List.drop_left]
  have hchars : List.map Char.ofNat (List.map Char.toNat cs) = cs := by
    rw [List.map_map]
    conv_rhs => rw [← List.map_id cs]
    apply List.map_congr_left
    intro c _
    simp
  simp only [refPutString, refGetString, List.cons_append, hlen, if_true, htake, hdrop, hchars]

/-- The reference decoder reads one number. -/
theorem refGetNat_cons (n : Nat) (rest : Bytes) :
    refGetNat (n :: rest) = some (n, rest) := rfl

/-- The reference decoder reads back an encoded boolean. -/
theorem refGetBool_put (b : Bool) (rest : Bytes) :
    refGetBool (refPutBool b ++ rest) = some (b, rest) := by
  cases b <;> rfl

/-- The reference decoder reads back the items of an encoded list. -/
theorem refGetItems_put {α : Type} (put : α → Bytes) (get : Bytes → Option (α × Bytes))
    (h : ∀ x rest, get (put x ++ rest) = some (x, rest)) (xs : List α) (rest : Bytes) :
    refGetItems get xs.length (refPutItems put xs ++ rest) = some (xs, rest) := by
  induction xs with
  | nil => rfl
  | cons x xs ih =>
    simp only [List.length_cons, refPutItems, refGetItems, List.append_assoc, h, ih]

/-- The reference decoder reads back an encoded list. -/
theorem refGetList_put {α : Type} (put : α → Bytes) (get : Bytes → Option (α × Bytes))
    (h : ∀ x rest, get (put x ++ rest) = some (x, rest)) (xs : List α) (rest : Bytes) :
    refGetList get (refPutList put xs ++ rest) = some (xs, rest) := by
  simp only [refPutList, List.cons_append, refGetList, refGetItems_put put get h]

/-- The reference decoder reads back an entry of a value map. -/
theorem refGetEntry_put (kv : String × Nat) (rest : Bytes) :
    refGetEntry (refPutEntry kv ++ rest) = some (kv, rest) := by
  simp only [refPutEntry, refGetEntry, List.append_assoc, refGetString_put, List.singleton_append,
    List.cons_append, List.nil_append, refGetNat_cons]

/-- The reference decoder reads back a stored action. -/
theorem refGetAction_put (a : internal.Action) (rest : Bytes) :
    refGetAction (refPutAction a ++ rest) = some (a, rest) := by
  simp only [refPutAction, refGetAction, List.append_assoc, refGetString_put,
    refGetList_put refPutEntry refGetEntry refGetEntry_put, List.singleton_append,
    List.cons_append, List.nil_append, refGetNat_cons]

/-- The reference decoder reads back a stored field. -/
theorem refGetField_put (f : internal.InputDefinitionField) (rest : Bytes) :
    refGetField (refPutField f ++ rest) = some (f, rest) := by
  simp only [refPutField, refGetField, List.append_assoc, refGetString_put, refGetBool_put,
    refGetList_put refPutAction refGetAction refGetAction_put]

/-- The reference decoder reads back a stored frame. -/
theorem refGetFrame_put (fr : internal.Frame) (rest : Bytes) :
    refGetFrame (refPutFrame fr ++ rest) = some (fr, rest) := by
  simp only [refPutFrame, refGetFrame, List.append_assoc, refGetString_put, refGetBool_put,
    List.singleton_append,
    List.cons_append, List.nil_append, refGetNat_cons]

/-- The reference decoder reads back every encoded message. -/
theorem refUnmarshal_refMarshal (pb : internal.InputDefinition) (buf : Bytes)
    (h : refMarshal pb = .ok buf) : refUnmarshal buf = .ok pb := by
  simp only [refMarshal, Except.ok.injEq] at h
  subst h
  have h2 := refGetList_put refPutField refGetField refGetField_put pb.InputDefinitionFields []
  rw [List.append_nil] at h2
  simp only [refUnmarshal, List.append_assoc, refGetString_put,
    refGetList_put refPutFrame refGetFrame refGetFrame_put, h2]

/-- The reference environment meets the contract of the codec. -/
theorem refEnv_CodecRoundTrip : CodecRoundTrip refEnv := by
  intro pb buf h
  exact refUnmarshal_refMarshal pb buf h

/-! ## The constructor -/

/-- C2 (constructor contract).  For every path, index and name,
`NewInputDefinition` fails exactly when `ValidateName` returns an error; on
failure the result is that error and carries no definition; on success the
result is a definition whose `Name`, `Index` and `Path` are the three
arguments and whose frames and fields are empty; in both cases the filesystem
is handed back unchanged and no library call has been made. -/
theorem NewInputDefinition_contract (env : Env FS) (path index name : String) (fs : FS) :
    ((∃ e, (NewInputDefinition env path index name fs).1 = .error e) ↔
        ∃ e, env.ValidateName name = some e) ∧
    (∀ e, env.ValidateName name = some e →
        (NewInputDefinition env path index name fs).1 = .error e) ∧
    (env.ValidateName name = none →
        ∃ d, (NewInputDefinition env path index name fs).1 = .ok d ∧
          d.Name = name ∧ d.Index = index ∧ d.Path = path ∧
          d.frames = [] ∧ d.fields = []) ∧
    (NewInputDefinition env path index name fs).2 = (fs, []) := by
  unfold NewInputDefinition
  cases h : env.ValidateName name with
  | none =>
    refine ⟨?_, ?_, ?_, rfl⟩
    · constructor
      · rintro ⟨e, he⟩
        cases he
      · rintro ⟨e, he⟩
        cases he
    · intro e he
      cases he
    · intro _
      exact ⟨_, rfl, rfl, rfl, rfl, rfl, rfl⟩
  | some err =>
    refine ⟨?_, ?_, ?_, rfl⟩
    · constructor
      · intro _
        exact ⟨err, rfl⟩
      · intro _
        exact ⟨err, rfl⟩
    · intro e he
      cases he
      rfl
    · intro he
      cases he

/-! ## Encoding -/

/-- C8 (encoding is an order-preserving projection).  The message that
`saveMeta` hands to the encoder carries the name of the definition; its frame
list has the length of the in-memory frame list and its k-th entry has the
name and the five options of the k-th frame; its field list has the length of
the in-memory field list and its k-th entry has the name, the primary-key flag
and, in the same order, the actions of the k-th field with frame, value
destination, value map and row ID unchanged; every action keeps its value map
and its row ID together, whatever its value destination. -/
theorem saveMeta_message_is_projection (env : Env FS) (i : InputDefinition) (fs : FS) :
    ∃ pb : internal.InputDefinition,
      (saveMeta env i fs).calls.head? = some (Call.Marshal pb) ∧
      pb.Name = i.name ∧
      pb.Frames.length = i.frames.length ∧
      (∀ k : Nat, (pb.Frames[k]?).map storedFrameView = (i.frames[k]?).map frameView) ∧
      pb.InputDefinitionFields.length = i.fields.length ∧
      (∀ k : Nat,
        (pb.InputDefinitionFields[k]?).map storedFieldView = (i.fields[k]?).map fieldView) ∧
      (∀ (k j : Nat) (f : Field) (a : Action),
        i.fields[k]? = some f → f.Actions[j]? = some a →
          ∃ sf sa, pb.InputDefinitionFields[k]? = some sf ∧
            sf.Actions.length = f.Actions.length ∧ sf.Actions[j]? = some sa ∧
            sa.Frame = a.Frame ∧ sa.ValueDestination = a.ValueDestination ∧
            sa.ValueMap = a.ValueMap ∧ sa.RowID = a.RowID) := by
  refine ⟨saveMeta_pb i, ?_, rfl, ?_, ?_, ?_, ?_, ?_⟩
  · rcases saveMeta_cases env i fs with ⟨e, h⟩ | ⟨buf, e, fs1, h, hw⟩ | ⟨buf, fs1, h, hw⟩
    · rw [saveMeta_of_marshal_error env i fs e h]
      rfl
    · rw [saveMeta_of_write_error env i fs fs1 buf e h hw]
      rfl
    · rw [saveMeta_of_written env i fs fs1 buf h hw]
      rfl
  · simp [saveMeta_pb, saveMeta_frames_eq_map]
  · intro k
    simp only [saveMeta_pb, saveMeta_frames_eq_map, List.getElem?_map, Option.map_map]
    cases i.frames[k]? <;> rfl
  · simp [saveMeta_pb, saveMeta_fields_eq_map]
  · intro k
    simp only [saveMeta_pb, saveMeta_fields_eq_map, List.getElem?_map, Option.map_map]
    cases i.fields[k]? with
    | none => rfl
    | some f =>
      simp only [Option.map_some', Function.comp, storedFieldView, fieldView,
        saveMeta_actions_eq_map, List.map_map]
      rfl
  · intro k j f a hf ha
    refine ⟨{ Name := f.Name, PrimaryKey := f.PrimaryKey,
              Actions := saveMeta_actions f.Actions },
            { Frame := a.Frame, ValueDestination := a.ValueDestination,
              ValueMap := a.ValueMap, RowID := a.RowID }, ?_, ?_, ?_, rfl, rfl, rfl, rfl⟩
    · simp only [saveMeta_pb, saveMeta_fields_eq_map, List.getElem?_map, hf, Option.map_some']
    · simp [saveMeta_actions_eq_map]
    · simp only [saveMeta_actions_eq_map, List.getElem?_map, ha, Option.map_some']

/-! ## Opening -/

/-- C5 (Open fails exactly when one of its three steps fails).  `Open`
returns an error if and only if the directory step fails, or it passes and the
read of `Join(path, name)` fails, or both pass and the decoder rejects the
bytes read.  The error returned is the error of the first failing step,
unmodified; the calls made stop at the failing step (no read after a failed
directory step, no decoding after a failed read); and on every failure the
receiver, hence its name, frames and fields, is what it was before. -/
theorem Open_fails_at_first_failing_step (env : Env FS) (i : InputDefinition) (fs : FS) :
    ((Open env i fs).err ≠ none ↔
      ((∃ e fs1, env.MkdirAll i.path 0o777 fs = (some e, fs1)) ∨
       (∃ fs1 e, env.MkdirAll i.path 0o777 fs = (none, fs1) ∧
          env.ReadFile (env.Join i.path i.name) fs1 = .error e) ∨
       (∃ fs1 buf e, env.MkdirAll i.path 0o777 fs = (none, fs1) ∧
          env.ReadFile (env.Join i.path i.name) fs1 = .ok buf ∧
          env.Unmarshal buf = .error e))) ∧
    (∀ e fs1, env.MkdirAll i.path 0o777 fs = (some e, fs1) →
      (Open env i fs).err = some e ∧
      (Open env i fs).calls = [.MkdirAll i.path 0o777]) ∧
    (∀ fs1 e, env.MkdirAll i.path 0o777 fs = (none, fs1) →
      env.ReadFile (env.Join i.path i.name) fs1 = .error e →
      (Open env i fs).err = some e ∧
      (Open env i fs).calls = [.MkdirAll i.path 0o777, .ReadFile (env.Join i.path i.name)]) ∧
    (∀ fs1 buf e, env.MkdirAll i.path 0o777 fs = (none, fs1) →
      env.ReadFile (env.Join i.path i.name) fs1 = .ok buf →
      env.Unmarshal buf = .error e →
      (Open env i fs).err = some e ∧
      (Open env i fs).calls =
        [.MkdirAll i.path 0o777, .ReadFile (env.Join i.path i.name), .Unmarshal buf]) ∧
    ((Open env i fs).err ≠ none →
      (Open env i fs).recv = i ∧
      (Open env i fs).recv.Name = i.Name ∧
      (Open env i fs).recv.frames = i.frames ∧
      (Open env i fs).recv.fields = i.fields) := by
  refine ⟨?_, ?_, ?_, ?_, ?_⟩
  · constructor
    · intro herr
      rcases Open_cases env i fs with ⟨e, fs1, h⟩ | ⟨fs1, e, h, hr⟩ | ⟨fs1, buf, e, h, hr, hu⟩ |
        ⟨fs1, buf, pb, h, hr, hu⟩
      · exact Or.inl ⟨e, fs1, h⟩
      · exact Or.inr (Or.inl ⟨fs1, e, h, hr⟩)
      · exact Or.inr (Or.inr ⟨fs1, buf, e, h, hr, hu⟩)
      · rw [Open_of_decoded env i fs fs1 buf pb h hr hu] at herr
        exact absurd rfl herr
    · rintro (⟨e, fs1, h⟩ | ⟨fs1, e, h, hr⟩ | ⟨fs1, buf, e, h, hr, hu⟩)
      · rw [Open_of_mkdir_error env i fs fs1 e h]
        simp
      · rw [Open_of_read_error env i fs fs1 e h hr]
        simp
      · rw [Open_of_decode_error env i fs fs1 buf e h hr hu]
        simp
  · intro e fs1 h
    rw [Open_of_mkdir_error env i fs fs1 e h]
    exact ⟨rfl, rfl⟩
  · intro fs1 e h hr
    rw [Open_of_read_error env i fs fs1 e h hr]
    exact ⟨rfl, rfl⟩
  · intro fs1 buf e h hr hu
    rw [Open_of_decode_error env i fs fs1 buf e h hr hu]
    exact ⟨rfl, rfl⟩
  · intro herr
    rcases Open_cases env i fs with ⟨e, fs1, h⟩ | ⟨fs1, e, h, hr⟩ | ⟨fs1, buf, e, h, hr, hu⟩ |
      ⟨fs1, buf, pb, h, hr, hu⟩
    · rw [Open_of_mkdir_error env i fs fs1 e h]
      exact ⟨rfl, rfl, rfl, rfl⟩
    · rw [Open_of_read_error env i fs fs1 e h hr]
      exact ⟨rfl, rfl, rfl, rfl⟩
    · rw [Open_of_decode_error env i fs fs1 buf e h hr hu]
      exact ⟨rfl, rfl, rfl, rfl⟩
    · rw [Open_of_decoded env i fs fs1 buf pb h hr hu] at herr
      exact absurd rfl herr

/-- C3 (effect of a successful Open).  When `Open` returns no error, the
file `Join(path, name)`, with the name the receiver had before the call, was
read and decoded, and afterwards the frames and fields of the receiver are
exactly the decoded frame list and field list, in stored order, its name is
the name encoded in the file, and nothing of the frames and fields held before
the call is left: the receiver after the call is the same whatever they
were. -/
theorem Open_success_replaces_state (env : Env FS) (i : InputDefinition) (fs : FS)
    (h : (Open env i fs).err = none) :
    ∃ (buf : Bytes) (pb : internal.InputDefinition),
      env.ReadFile (env.Join i.path i.name) (env.MkdirAll i.path 0o777 fs).2 = .ok buf ∧
      env.Unmarshal buf = .ok pb ∧
      (Open env i fs).recv.Name = pb.Name ∧
      (Open env i fs).recv.frames = pb.Frames ∧
      (Open env i fs).recv.fields = pb.InputDefinitionFields ∧
      ∀ (frames0 : List InputFrame) (fields0 : List Field),
        (Open env { i with frames := frames0, fields := fields0 } fs).recv =
          (Open env i fs).recv := by
  rcases Open_cases env i fs with ⟨e, fs1, hd⟩ | ⟨fs1, e, hd, hr⟩ | ⟨fs1, buf, e, hd, hr, hu⟩ |
    ⟨fs1, buf, pb, hd, hr, hu⟩
  · rw [Open_of_mkdir_error env i fs fs1 e hd] at h
    cases h
  · rw [Open_of_read_error env i fs fs1 e hd hr] at h
    cases h
  · rw [Open_of_decode_error env i fs fs1 buf e hd hr hu] at h
    cases h
  · refine ⟨buf, pb, ?_, hu, ?_, ?_, ?_, ?_⟩
    · rw [hd]
      exact hr
    · rw [Open_of_decoded env i fs fs1 buf pb hd hr hu]
      rfl
    · rw [Open_of_decoded env i fs fs1 buf pb hd hr hu]
    · rw [Open_of_decoded env i fs fs1 buf pb hd hr hu]
    · intro frames0 fields0
      rw [Open_of_decoded env i fs fs1 buf pb hd hr hu,
        Open_of_decoded env { i with frames := frames0, fields := fields0 } fs fs1 buf pb hd hr hu]

/-- Witness of C3 on the reference environment: a definition that holds a
frame and a field of its own, opened on the filesystem that holds the saved
scenario A; afterwards it holds the frames and fields of scenario A and
nothing else. -/
theorem Open_success_replaces_state_witness :
    (Open refEnv staleA fsSavedA).err = none ∧
    (Open refEnv staleA fsSavedA).recv.frames = scenarioA.frames ∧
    (Open refEnv staleA fsSavedA).recv.fields = scenarioA.fields ∧
    ∃ (buf : Bytes) (pb : internal.InputDefinition),
      refEnv.ReadFile (refEnv.Join staleA.path staleA.name)
        (refEnv.MkdirAll staleA.path 0o777 fsSavedA).2 = .ok buf ∧
      refEnv.Unmarshal buf = .ok pb ∧
      (Open refEnv staleA fsSavedA).recv.Name = pb.Name ∧
      (Open refEnv staleA fsSavedA).recv.frames = pb.Frames ∧
      (Open refEnv staleA fsSavedA).recv.fields = pb.InputDefinitionFields ∧
      ∀ (frames0 : List InputFrame) (fields0 : List Field),
        (Open refEnv { staleA with frames := frames0, fields := fields0 } fsSavedA).recv =
          (Open refEnv staleA fsSavedA).recv :=
  ⟨rfl, rfl, rfl, Open_success_replaces_state refEnv staleA fsSavedA rfl⟩

/-- C4, as stated, fails.  The definition has the empty path, so its file
`Join("", "default")` is `default` in the working directory; the file is there
and the decoder rejects its bytes.  `Open` does not return the error of the
decoder: `MkdirAll("")` fails first, and `Open` returns that error without
reading the file. -/
theorem Open_decode_error_counterexample :
    (NewInputDefinition refEnv "" "idx" "default" fsCorruptNoDir).1 = .ok freshNoDir ∧
    refEnv.ReadFile (refEnv.Join "" "default") fsCorruptNoDir = .ok [9, 100] ∧
    refEnv.Unmarshal [9, 100] = .error "unexpected EOF" ∧
    (Open refEnv freshNoDir fsCorruptNoDir).err = some "mkdir: no such file or directory" ∧
    (Open refEnv freshNoDir fsCorruptNoDir).err ≠ some "unexpected EOF" ∧
    (Open refEnv freshNoDir fsCorruptNoDir).calls = [.MkdirAll "" 0o777] :=
  ⟨rfl, rfl, rfl, rfl, by decide, rfl⟩

/-- C4, amended (corruption rejection is atomic).  When the file
`Join(path, name)` is there (the read on the filesystem the directory step
leaves returns its bytes) and the decoder rejects the bytes, `Open` returns an
error: the error of the decoder when the directory step `MkdirAll(path)`
returns nil, and the error of the directory step otherwise.  In both cases the
receiver, hence its name, frames and fields, is what it was before the call; a
freshly constructed definition still has empty frames and fields. -/
theorem Open_decode_error_is_atomic (env : Env FS) (i : InputDefinition) (fs : FS)
    (buf : Bytes) (e : Error)
    (hfile : env.ReadFile (env.Join i.path i.name) (env.MkdirAll i.path 0o777 fs).2 = .ok buf)
    (hbad : env.Unmarshal buf = .error e) :
    ((env.MkdirAll i.path 0o777 fs).1 = none → (Open env i fs).err = some e) ∧
    (∀ e1, (env.MkdirAll i.path 0o777 fs).1 = some e1 → (Open env i fs).err = some e1) ∧
    (Open env i fs).err ≠ none ∧
    (Open env i fs).recv = i ∧
    (Open env i fs).recv.Name = i.Name ∧
    (Open env i fs).recv.frames = i.frames ∧
    (Open env i fs).recv.fields = i.fields ∧
    (∀ (path index name : String) (fs0 : FS),
      (NewInputDefinition env path index name fs0).1 = .ok i →
        (Open env i fs).recv.frames = [] ∧ (Open env i fs).recv.fields = []) := by
  have hfresh : ∀ (path index name : String) (fs0 : FS),
      (NewInputDefinition env path index name fs0).1 = .ok i →
        i.frames = [] ∧ i.fields = [] := by
    intro path index name fs0 hnew
    have hi := NewInputDefinition_ok env path index name fs0 i hnew
    subst hi
    exact ⟨rfl, rfl⟩
  rcases hd : env.MkdirAll i.path 0o777 fs with ⟨_ | e1, fs1⟩
  · rw [hd] at hfile
    rw [Open_of_decode_error env i fs fs1 buf e hd hfile hbad]
    refine ⟨fun _ => rfl, ?_, ?_, rfl, rfl, rfl, rfl, hfresh⟩
    · intro e1 he1
      cases he1
    · simp
  · rw [Open_of_mkdir_error env i fs fs1 e1 hd]
    refine ⟨?_, ?_, ?_, rfl, rfl, rfl, rfl, hfresh⟩
    · intro hnone
      cases hnone
    · intro e2 he2
      cases he2
      rfl
    · simp

/-- Witness of the amended C4 on the reference environment: a fresh
definition opened on a filesystem whose descriptor file is cut short. -/
theorem Open_decode_error_is_atomic_witness :
    refEnv.ReadFile (refEnv.Join freshA.path freshA.name)
      (refEnv.MkdirAll freshA.path 0o777 fsCorrupt).2 = .ok [9, 100] ∧
    refEnv.Unmarshal [9, 100] = .error "unexpected EOF" ∧
    (refEnv.MkdirAll freshA.path 0o777 fsCorrupt).1 = none ∧
    (Open refEnv freshA fsCorrupt).err = some "unexpected EOF" ∧
    (Open refEnv freshA fsCorrupt).recv = freshA ∧
    (Open refEnv freshA fsCorrupt).recv.frames = [] ∧
    (Open refEnv freshA fsCorrupt).recv.fields = [] :=
  ⟨rfl, rfl, rfl,
    (Open_decode_error_is_atomic refEnv freshA fsCorrupt [9, 100] "unexpected EOF"
      rfl rfl).1 rfl,
    (Open_decode_error_is_atomic refEnv freshA fsCorrupt [9, 100] "unexpected EOF"
      rfl rfl).2.2.2.1,
    rfl, rfl⟩

/-- C9 (first Open with nothing on disk).  For a freshly constructed
definition with path `p` and name `n`, when the directory `p` can be created
and no file `Join(p, n)` can be read once it has been, `Open` returns the
error of the read; the filesystem afterwards is the one the successful
`MkdirAll(p)` produced, so the directory is there (creating it again does
nothing and returns nil, under the contract of `MkdirAll`); the only calls
made are the directory creation and the read, so no file has been created and
the file is still not there; and the name, frames and fields of the definition
are unchanged, the last two still empty. -/
theorem Open_fresh_with_nothing_on_disk (env : Env FS) (p index n : String)
    (fs fs1 : FS) (d : InputDefinition) (e : Error)
    (hnew : (NewInputDefinition env p index n fs).1 = .ok d)
    (hdir : env.MkdirAll p 0o777 fs = (none, fs1))
    (hnofile : env.ReadFile (env.Join p n) fs1 = .error e) :
    (Open env d fs).err = some e ∧
    (Open env d fs).fs = fs1 ∧
    (MkdirAllExisting env →
      env.MkdirAll p 0o777 (Open env d fs).fs = (none, (Open env d fs).fs)) ∧
    (Open env d fs).calls = [.MkdirAll p 0o777, .ReadFile (env.Join p n)] ∧
    env.ReadFile (env.Join p n) (Open env d fs).fs = .error e ∧
    (Open env d fs).recv = d ∧
    (Open env d fs).recv.Name = n ∧
    (Open env d fs).recv.frames = [] ∧
    (Open env d fs).recv.fields = [] := by
  have hd := NewInputDefinition_ok env p index n fs d hnew
  subst hd
  rw [Open_of_read_error env _ fs fs1 e hdir hnofile]
  exact ⟨rfl, rfl, fun hE => hE p 0o777 fs fs1 hdir, rfl, hnofile, rfl, rfl, rfl, rfl⟩

/-- Witness of C9 on the reference environment: a fresh definition opened on
the empty filesystem. -/
theorem Open_fresh_with_nothing_on_disk_witness :
    (Open refEnv freshA fsEmpty).err = some "open: no such file or directory" ∧
    (Open refEnv freshA fsEmpty).fs = fsDirOnly ∧
    (MkdirAllExisting refEnv →
      refEnv.MkdirAll "/tmp/x" 0o777 (Open refEnv freshA fsEmpty).fs =
        (none, (Open refEnv freshA fsEmpty).fs)) ∧
    (Open refEnv freshA fsEmpty).calls =
      [.MkdirAll "/tmp/x" 0o777, .ReadFile (refEnv.Join "/tmp/x" "default")] ∧
    refEnv.ReadFile (refEnv.Join "/tmp/x" "default") (Open refEnv freshA fsEmpty).fs =
      .error "open: no such file or directory" ∧
    (Open refEnv freshA fsEmpty).recv = freshA ∧
    (Open refEnv freshA fsEmpty).recv.Name = "default" ∧
    (Open refEnv freshA fsEmpty).recv.frames = [] ∧
    (Open refEnv freshA fsEmpty).recv.fields = [] :=
  Open_fresh_with_nothing_on_disk refEnv "/tmp/x" "idx" "default" fsEmpty fsDirOnly
    freshA "open: no such file or directory" rfl rfl rfl

/-- C6, as stated, fails, in two ways.  First: the file `/tmp/x/default`
holds a valid descriptor whose encoded name is `other`.  A definition
constructed with path `/tmp/x` and name `default` opens it without error and
takes the name `other`; the second `Open` passes the directory step, then
reads `/tmp/x/other`, which is not there, and returns the error of the read.
Second: a definition constructed with the empty path and name `default`, whose
file `Join("", "default")` holds a valid descriptor that encodes the name
`default`; already the first `Open` fails, at `MkdirAll("")`.  The environment
meets the contracts of `MkdirAll`, `WriteFile` and the codec. -/
theorem Open_twice_counterexample :
    ((NewInputDefinition refEnv "/tmp/x" "idx" "default" fsRenamed).1 = .ok freshA ∧
      refEnv.ReadFile (refEnv.Join "/tmp/x" "default") fsRenamed =
        .ok [5, 111, 116, 104, 101, 114, 0, 0] ∧
      refEnv.Unmarshal [5, 111, 116, 104, 101, 114, 0, 0] =
        .ok { Name := "other", Frames := [], InputDefinitionFields := [] } ∧
      (Open refEnv freshA fsRenamed).err = none ∧
      (Open refEnv freshA fsRenamed).recv.Name = "other" ∧
      (Open refEnv (Open refEnv freshA fsRenamed).recv (Open refEnv freshA fsRenamed).fs).err =
        some "open: no such file or directory" ∧
      (Open refEnv (Open refEnv freshA fsRenamed).recv
          (Open refEnv freshA fsRenamed).fs).calls =
        [.MkdirAll "/tmp/x" 0o777, .ReadFile "/tmp/x/other"]) ∧
    ((NewInputDefinition refEnv "" "idx" "default" fsValidNoDir).1 = .ok freshNoDir ∧
      refEnv.ReadFile (refEnv.Join "" "default") fsValidNoDir =
        .ok [7, 100, 101, 102, 97, 117, 108, 116, 0, 0] ∧
      refEnv.Unmarshal [7, 100, 101, 102, 97, 117, 108, 116, 0, 0] =
        .ok { Name := "default", Frames := [], InputDefinitionFields := [] } ∧
      (Open refEnv freshNoDir fsValidNoDir).err = some "mkdir: no such file or directory" ∧
      (Open refEnv freshNoDir fsValidNoDir).calls = [.MkdirAll "" 0o777]) ∧
    MkdirAllExisting refEnv ∧ MkdirAllKeepsFiles refEnv ∧ WriteFileContract refEnv ∧
    CodecRoundTrip refEnv :=
  ⟨⟨rfl, rfl, rfl, rfl, rfl, rfl, rfl⟩, ⟨rfl, rfl, rfl, rfl, rfl⟩,
    refEnv_MkdirAllExisting, refEnv_MkdirAllKeepsFiles, refEnv_WriteFileContract,
    refEnv_CodecRoundTrip⟩

/-- C6, amended (Open is idempotent on a valid file that encodes the name of
the definition, in a directory that can be created).  When the directory step
`MkdirAll(path)` returns nil and the file `Join(path, name)` holds a valid
descriptor (the read returns its bytes, the decoder accepts them) whose
encoded name is the name of the definition, two calls of `Open` in a row both
return no error (the second directory step, run on the directory that exists,
does nothing and returns nil, by the contract of `MkdirAll`) and the second
call leaves name, frames, fields and the filesystem exactly as the first call
left them. -/
theorem Open_twice_same_name (env : Env FS) (i : InputDefinition) (fs fs1 : FS)
    (buf : Bytes) (pb : internal.InputDefinition)
    (hE : MkdirAllExisting env)
    (hdir : env.MkdirAll i.path 0o777 fs = (none, fs1))
    (hfile : env.ReadFile (env.Join i.path i.name) fs1 = .ok buf)
    (hvalid : env.Unmarshal buf = .ok pb)
    (hname : pb.Name = i.name) :
    (Open env i fs).err = none ∧
    (Open env (Open env i fs).recv (Open env i fs).fs).err = none ∧
    (Open env (Open env i fs).recv (Open env i fs).fs).recv = (Open env i fs).recv ∧
    (Open env (Open env i fs).recv (Open env i fs).fs).fs = (Open env i fs).fs := by
  rw [Open_of_decoded env i fs fs1 buf pb hdir hfile hvalid]
  have hd2 : env.MkdirAll i.path 0o777 fs1 = (none, fs1) := hE i.path 0o777 fs fs1 hdir
  have hr2 : env.ReadFile (env.Join i.path pb.Name) fs1 = .ok buf := by
    rw [hname]
    exact hfile
  have second :=
    Open_of_decoded env
      { i with
        name := pb.Name,
        frames := pb.Frames,
        fields := pb.InputDefinitionFields }
      fs1 fs1 buf pb hd2 hr2 hvalid
  simp only at second ⊢
  rw [second]
  exact ⟨trivial, rfl, rfl, rfl⟩

/-- Witness of the amended C6 on the reference environment: the saved
scenario A, whose file encodes the name `default`, opened twice. -/
theorem Open_twice_same_name_witness :
    (Open refEnv freshA fsSavedA).err = none ∧
    (Open refEnv (Open refEnv freshA fsSavedA).recv (Open refEnv freshA fsSavedA).fs).err =
      none ∧
    (Open refEnv (Open refEnv freshA fsSavedA).recv (Open refEnv freshA fsSavedA).fs).recv =
      (Open refEnv freshA fsSavedA).recv ∧
    (Open refEnv (Open refEnv freshA fsSavedA).recv (Open refEnv freshA fsSavedA).fs).fs =
      (Open refEnv freshA fsSavedA).fs :=
  Open_twice_same_name refEnv freshA fsSavedA fsSavedA
    [7, 100, 101, 102, 97, 117, 108, 116, 1, 2, 102, 49, 2, 105, 100, 0, 6, 114, 97, 110,
     107, 101, 100, 1000, 0, 1, 3, 97, 103, 101, 0, 1, 2, 102, 49, 0, 0, 5]
    (saveMeta_pb scenarioA) refEnv_MkdirAllExisting rfl rfl rfl rfl

/-! ## Saving -/

/-- C7 (save overwrites exactly one file in full).  Under the contract of
`WriteFile`: when `saveMeta` returns no error, the encoder returned a buffer
for the message of the current name, frames and fields, the one write made is
`WriteFile(Join(path, name), buffer, 0666)`, the file `Join(path, name)`
afterwards reads as exactly that buffer, and every other file reads as before.
In every case the receiver (name, path, index, frames, fields) is unchanged.
When the encoder fails, its error is returned, the filesystem is the one
before the call and no write has been made. -/
theorem saveMeta_overwrites_one_file (env : Env FS) (i : InputDefinition) (fs : FS)
    (hW : WriteFileContract env) :
    ((saveMeta env i fs).err = none →
      ∃ buf : Bytes,
        env.Marshal (saveMeta_pb i) = .ok buf ∧
        (saveMeta env i fs).calls =
          [.Marshal (saveMeta_pb i), .WriteFile (env.Join i.path i.name) buf 0o666] ∧
        env.ReadFile (env.Join i.path i.name) (saveMeta env i fs).fs = .ok buf ∧
        ∀ other : String, other ≠ env.Join i.path i.name →
          env.ReadFile other (saveMeta env i fs).fs = env.ReadFile other fs) ∧
    (saveMeta env i fs).recv = i ∧
    (∀ e, env.Marshal (saveMeta_pb i) = .error e →
      (saveMeta env i fs).err = some e ∧
      (saveMeta env i fs).fs = fs ∧
      (saveMeta env i fs).calls = [.Marshal (saveMeta_pb i)]) := by
  rcases saveMeta_cases env i fs with ⟨e, h⟩ | ⟨buf, e, fs1, h, hw⟩ | ⟨buf, fs1, h, hw⟩
  · rw [saveMeta_of_marshal_error env i fs e h]
    refine ⟨?_, rfl, ?_⟩
    · intro herr
      cases herr
    · intro e2 h2
      rw [h] at h2
      cases h2
      exact ⟨rfl, rfl, rfl⟩
  · rw [saveMeta_of_write_error env i fs fs1 buf e h hw]
    refine ⟨?_, rfl, ?_⟩
    · intro herr
      cases herr
    · intro e2 h2
      rw [h] at h2
      cases h2
  · rw [saveMeta_of_written env i fs fs1 buf h hw]
    refine ⟨?_, rfl, ?_⟩
    · intro _
      exact ⟨buf, h, rfl, (hW _ _ _ _ _ hw).1, (hW _ _ _ _ _ hw).2⟩
    · intro e2 h2
      rw [h] at h2
      cases h2

/-- Witness of C7 on the reference environment: scenario A saved over a
longer file left at the same place. -/
theorem saveMeta_overwrites_one_file_witness :
    WriteFileContract refEnv ∧
    (saveMeta refEnv scenarioA fsSavedLonger).err = none ∧
    (saveMeta refEnv scenarioA fsSavedLonger).fs.files =
      [("/tmp/x/default",
        [7, 100, 101, 102, 97, 117, 108, 116, 1, 2, 102, 49, 2, 105, 100, 0, 6, 114, 97, 110,
         107, 101, 100, 1000, 0, 1, 3, 97, 103, 101, 0, 1, 2, 102, 49, 0, 0, 5]),
       ("/tmp/x/other", [5, 111, 116, 104, 101, 114, 0, 0])] ∧
    (saveMeta refEnv scenarioA fsSavedLonger).recv = scenarioA :=
  ⟨refEnv_WriteFileContract, rfl, rfl,
    (saveMeta_overwrites_one_file refEnv scenarioA fsSavedLonger refEnv_WriteFileContract).2.1⟩

/-! ## Round trip -/

/-- C10 (identifier immutability).  For a definition built by
`NewInputDefinition(p, ix, n)` and every finite sequence of `Open` and
`saveMeta` calls on it, whether they fail or not, after every call `Index`
returns `ix` and `Path` returns `p`, and `Name` returns `n` after every call
up to which no `Open` has returned nil; a single `saveMeta` and a single
failed `Open` never change the name. -/
theorem identifiers_are_kept (env : Env FS) (p ix n : String) (fs0 fs : FS)
    (d : InputDefinition) (ops : List Op)
    (hnew : (NewInputDefinition env p ix n fs0).1 = .ok d) :
    (∀ (k : Nat) (r : Outcome FS), (runOps env ops d fs)[k]? = some r →
      r.recv.Index = ix ∧ r.recv.Path = p ∧
      ((∀ (j : Nat) (rj : Outcome FS), j ≤ k → ops[j]? = some Op.Open →
          (runOps env ops d fs)[j]? = some rj → rj.err ≠ none) →
        r.recv.Name = n)) ∧
    (∀ (i : InputDefinition) (fs1 : FS), (saveMeta env i fs1).recv.Name = i.Name) ∧
    (∀ (i : InputDefinition) (fs1 : FS),
      (Open env i fs1).err ≠ none → (Open env i fs1).recv.Name = i.Name) := by
  refine ⟨?_, ?_, ?_⟩
  · intro k r hr
    have hd := NewInputDefinition_ok env p ix n fs0 d hnew
    obtain ⟨hp, hi, hn⟩ := runOps_identifiers env ops d fs k r hr
    subst hd
    exact ⟨hi, hp, hn⟩
  · intro i fs1
    exact execOp_name env Op.saveMeta i fs1 (fun h => by cases h)
  · intro i fs1 herr
    exact execOp_name env Op.Open i fs1 (fun _ => herr)

/-- Witness of C10 on the reference environment: a fresh definition on the
empty filesystem, opened (no file: error), saved, and opened again. -/
theorem identifiers_are_kept_witness :
    (NewInputDefinition refEnv "/tmp/x" "idx" "default" fsEmpty).1 = .ok freshA ∧
    (runOps refEnv [Op.Open, Op.saveMeta, Op.Open] freshA fsEmpty).map (fun r => r.err) =
      [some "open: no such file or directory", none, none] ∧
    (∀ (k : Nat) (r : Outcome RefFS),
      (runOps refEnv [Op.Open, Op.saveMeta, Op.Open] freshA fsEmpty)[k]? = some r →
        r.recv.Index = "idx" ∧ r.recv.Path = "/tmp/x" ∧
        ((∀ (j : Nat) (rj : Outcome RefFS), j ≤ k →
            [Op.Open, Op.saveMeta, Op.Open][j]? = some Op.Open →
            (runOps refEnv [Op.Open, Op.saveMeta, Op.Open] freshA fsEmpty)[j]? = some rj →
              rj.err ≠ none) →
          r.recv.Name = "default")) :=
  ⟨rfl, rfl,
    (identifiers_are_kept refEnv "/tmp/x" "idx" "default" fsEmpty fsEmpty freshA
      [Op.Open, Op.saveMeta, Op.Open] rfl).1⟩

end Pilosa
